import Mathlib

/-!
Verification of the entity-resolution / report-cache gateway and the
streaming research-progress reconstructor of the junction-hack repository.

The definitions below are a shallow embedding of the TypeScript source:
* `components/ResearchStreamModal.tsx` (stream framing, event parsing,
  phase state machine, findings / sources / trust-score extraction);
* `app/api/research/route.ts` (entity matcher and cache resolution);
* `app/api/reports/[id]/route.ts` (report lookup by id);
* `app/api/user/accessed-reports/route.ts` (access-record writes).

Modelling conventions:
* JavaScript strings are modelled as Lean `String` / `List Char`; the
  `TextDecoder` byte-to-text layer is transparent (a chunk is a list of
  characters), so a 1-byte chunk is a 1-character chunk.
* `JSON.parse` is a platform builtin; the stream-loop definitions take an
  abstract decoder `dec : String → Option Json` in its place.
* `String.prototype.toLowerCase` is modelled on the ASCII range.
* Wall-clock values (`Date.now()`, `new Date().toISOString()`) are not part
  of any compared state; where the source stores a timestamp the model takes
  it as an explicit argument.
-/

namespace Junction

/-- ASCII lower-casing of a single character, as `toLowerCase` acts on the
ASCII range: codepoints 65–90 are shifted by 32, all others are unchanged. -/
def asciiLower (c : Char) : Char :=
  if 65 ≤ c.toNat ∧ c.toNat ≤ 90 then Char.ofNat (c.toNat + 32) else c

/-- String lower-casing (`s.toLowerCase()`), character by character. -/
def strLower (s : String) : String :=
  String.mk (s.data.map asciiLower)

/-- Whitespace test for the `\s` character class and for `trim`. -/
def isWs (c : Char) : Bool :=
  c = ' ' ∨ c = '\t' ∨ c = '\n' ∨ c = '\r' ∨ c = Char.ofNat 11 ∨ c = Char.ofNat 12

/-- Leading and trailing whitespace removal (`s.trim()`). -/
def trimChars (cs : List Char) : List Char :=
  ((cs.dropWhile isWs).reverse.dropWhile isWs).reverse

/-- Whether `needle` occurs as a contiguous substring of `hay`
(`hay.includes(needle)`). -/
def containsSub (hay needle : List Char) : Bool :=
  match hay with
  | [] => needle.isEmpty
  | _ :: t => needle.isPrefixOf hay || containsSub t needle

/-- Substring test on strings. -/
def strContains (hay needle : String) : Bool :=
  containsSub hay.data needle.data

/-- Duplicate removal keeping the first occurrence of each element, as the
JavaScript idiom `[...new Set(xs)]` does. -/
def firstDedup (xs : List String) : List String :=
  xs.foldl (fun acc x => if x ∈ acc then acc else acc ++ [x]) []

/-- Decimal value of a digit string (`parseInt` on an all-digit capture). -/
def digitsToNat (ds : List Char) : Nat :=
  ds.foldl (fun n c => n * 10 + (c.toNat - 48)) 0

/-- JSON values, the decoded form of one stream event (`JSON.parse` output). -/
inductive Json where
  | null
  | bool (b : Bool)
  | num (n : Int)
  | str (s : String)
  | arr (xs : List Json)
  | obj (kvs : List (String × Json))
deriving Inhabited

/-- Structural equality test on JSON values (JavaScript deep value equality,
as used by Firestore for `arrayUnion` element comparison). -/
def Json.beq : Json → Json → Bool
  | .null, .null => true
  | .bool a, .bool b => a = b
  | .num a, .num b => a = b
  | .str a, .str b => a = b
  | .arr [], .arr [] => true
  | .arr (x :: xs), .arr (y :: ys) => Json.beq x y && Json.beq (.arr xs) (.arr ys)
  | .obj [], .obj [] => true
  | .obj ((k, v) :: xs), .obj ((k2, v2) :: ys) =>
      k = k2 && Json.beq v v2 && Json.beq (.obj xs) (.obj ys)
  | _, _ => false

/-- Whether a decoded value is JSON `null` (property access on `null` throws
a `TypeError` in JavaScript, which matters to `parseEventData`). -/
def isNullJson : Json → Bool
  | .null => true
  | _ => false

/-- First-key property access `j[k]` on a JSON object; `undefined` (here
`none`) on every non-object, as bare property access behaves for the
property names that occur in the source. -/
def getProp (j : Json) (k : String) : Option Json :=
  match j with
  | .obj kvs =>
      match kvs.find? (fun kv => kv.1 = k) with
      | some kv => some kv.2
      | none => none
  | _ => none

/-- JavaScript truthiness of a JSON value. -/
def truthy : Json → Bool
  | .null => false
  | .bool b => b
  | .num n => n ≠ 0
  | .str s => s ≠ ""
  | .arr _ => true
  | .obj _ => true

/-- Escape of one character inside a JSON string literal, as
`JSON.stringify` prints it (the characters that occur in this development). -/
def escapeChar (c : Char) : String :=
  if c = '"' then "\\\""
  else if c = '\\' then "\\\\"
  else if c = '\n' then "\\n"
  else if c = '\t' then "\\t"
  else if c = '\r' then "\\r"
  else String.singleton c

/-- Escape of a whole string body for `JSON.stringify`. -/
def escape (s : String) : String :=
  String.join (s.data.map escapeChar)

mutual

/-- Serialization of a JSON value, as `JSON.stringify(data)` prints it:
no whitespace, double-quoted strings, `"key":value` object members. -/
def stringify : Json → String
  | .null => "null"
  | .bool true => "true"
  | .bool false => "false"
  | .num n => toString n
  | .str s => "\"" ++ escape s ++ "\""
  | .arr xs => "[" ++ stringifyList xs ++ "]"
  | .obj kvs => "\x7b" ++ stringifyObj kvs ++ "\x7d"

/-- Comma-separated serialization of array elements. -/
def stringifyList : List Json → String
  | [] => ""
  | [x] => stringify x
  | x :: xs => stringify x ++ "," ++ stringifyList xs

/-- Comma-separated serialization of object members. -/
def stringifyObj : List (String × Json) → String
  | [] => ""
  | [kv] => "\"" ++ escape kv.1 ++ "\":" ++ stringify kv.2
  | kv :: kvs => "\"" ++ escape kv.1 ++ "\":" ++ stringify kv.2 ++ "," ++ stringifyObj kvs

end

/-! ### Pattern scanners

The three regular expressions of `ResearchStreamModal.tsx` —
`/CVE-\d{4}-\d+/g`, `/(https?:\/\/[^\s,"}\]]+)/g` and
`/trust[_\s]?score["\s:]+(\d+)/i` — contain no backtracking ambiguity, so
each is implemented as a deterministic scanner.  The global scans walk the
text left to right, skipping one character after a failed match attempt and
resuming after the end of a successful match, exactly as `String.match`
with the `g` flag advances `lastIndex`. -/

/-- Longest digit prefix of a character list, with the remainder. -/
def takeDigits : List Char → List Char × List Char
  | [] => ([], [])
  | c :: cs =>
      if c.isDigit then
        let (ds, r) := takeDigits cs
        (c :: ds, r)
      else ([], c :: cs)

/-- Attempt to match `CVE-\d\x7b4\x7d-\d+` at the head of the text; on success
return the matched characters and the rest of the text. -/
def matchCveAt : List Char → Option (List Char × List Char)
  | 'C' :: 'V' :: 'E' :: '-' :: d1 :: d2 :: d3 :: d4 :: '-' :: rest =>
      if d1.isDigit ∧ d2.isDigit ∧ d3.isDigit ∧ d4.isDigit then
        match takeDigits rest with
        | ([], _) => none
        | (ds, r) => some ('C' :: 'V' :: 'E' :: '-' :: d1 :: d2 :: d3 :: d4 :: '-' :: ds, r)
      else none
  | _ => none

/-- Characters allowed in the URL body: the negated class excludes
whitespace, comma, double quote, right brace and right bracket. -/
def isUrlChar (c : Char) : Bool :=
  ¬(isWs c ∨ c = ',' ∨ c = '"' ∨ c = Char.ofNat 125 ∨ c = ']')

/-- Longest URL-body prefix of a character list, with the remainder. -/
def takeUrlChars : List Char → List Char × List Char
  | [] => ([], [])
  | c :: cs =>
      if isUrlChar c then
        let (us, r) := takeUrlChars cs
        (c :: us, r)
      else ([], c :: cs)

/-- Attempt to match `https?://` plus a nonempty URL body at the head of the
text; on success return the matched characters and the rest of the text. -/
def matchUrlAt (cs : List Char) : Option (List Char × List Char) :=
  match cs with
  | 'h' :: 't' :: 't' :: 'p' :: rest =>
      match rest with
      | 's' :: ':' :: '/' :: '/' :: r2 =>
          match takeUrlChars r2 with
          | ([], _) => none
          | (us, r) => some ('h' :: 't' :: 't' :: 'p' :: 's' :: ':' :: '/' :: '/' :: us, r)
      | ':' :: '/' :: '/' :: r2 =>
          match takeUrlChars r2 with
          | ([], _) => none
          | (us, r) => some ('h' :: 't' :: 't' :: 'p' :: ':' :: '/' :: '/' :: us, r)
      | _ => none
  | _ => none

/-- Global scan driver: `fuel` bounds the number of steps (the callers pass
the length of the text, which suffices because every successful match
consumes at least one character). -/
def scanAll (step : List Char → Option (List Char × List Char)) :
    Nat → List Char → List String
  | 0, _ => []
  | _, [] => []
  | Nat.succ n, c :: cs =>
      match step (c :: cs) with
      | some (m, r) => String.mk m :: scanAll step n r
      | none => scanAll step n cs

/-- All matches of the CVE pattern in a string (`content.match(/CVE-.../g)`). -/
def scanCves (s : String) : List String :=
  scanAll matchCveAt s.data.length s.data

/-- All matches of the URL pattern in a string. -/
def scanUrlsRaw (s : String) : List String :=
  scanAll matchUrlAt s.data.length s.data

/-- `extractUrls`: URL matches, deduplicated keeping first occurrences,
truncated to 10 (`[...new Set(matches)].slice(0, 10)`). -/
def extractUrls (s : String) : List String :=
  (firstDedup (scanUrlsRaw s)).take 10

/-- Case-insensitive comparison of one character against a lowercase
reference character. -/
def ciIs (c a : Char) : Bool := asciiLower c = a

/-- Longest prefix of characters from the class `["\s:]`, with remainder. -/
def takeScoreSep : List Char → List Char × List Char
  | [] => ([], [])
  | c :: cs =>
      if c = '"' ∨ isWs c ∨ c = ':' then
        let (ss, r) := takeScoreSep cs
        (c :: ss, r)
      else ([], c :: cs)

/-- Attempt to match `trust[_\s]?score["\s:]+(\d+)` (case-insensitively) at
the head of the text; on success return the captured digit group. -/
def matchScoreAt (cs : List Char) : Option (List Char) :=
  match cs with
  | c1 :: c2 :: c3 :: c4 :: c5 :: rest =>
      if ciIs c1 't' ∧ ciIs c2 'r' ∧ ciIs c3 'u' ∧ ciIs c4 's' ∧ ciIs c5 't' then
        let rest2 :=
          match rest with
          | c :: r => if c = '_' ∨ isWs c then r else rest
          | [] => rest
        match rest2 with
        | s1 :: s2 :: s3 :: s4 :: s5 :: r3 =>
            if ciIs s1 's' ∧ ciIs s2 'c' ∧ ciIs s3 'o' ∧ ciIs s4 'r' ∧ ciIs s5 'e' then
              match takeScoreSep r3 with
              | ([], _) => none
              | (_, r4) =>
                  match takeDigits r4 with
                  | ([], _) => none
                  | (ds, _) => some ds
            else none
        | _ => none
      else none
  | _ => none

/-- First-match scan driver for the trust-score pattern (no `g` flag:
`String.match` returns the first match only). -/
def scanFirst (step : List Char → Option (List Char)) :
    Nat → List Char → Option (List Char)
  | 0, _ => none
  | _, [] => none
  | Nat.succ n, c :: cs =>
      match step (c :: cs) with
      | some m => some m
      | none => scanFirst step n cs

/-- The trust score captured from a serialized event, if the trust-score
pattern matches anywhere (`dataStr.match(/trust[_\s]?score["\s:]+(\d+)/i)`
followed by `parseInt` on the capture). -/
def scanScore (s : String) : Option Nat :=
  (scanFirst matchScoreAt s.data.length s.data).map digitsToNat

/-! ### Research phase state machine (`ResearchStreamModal.tsx`) -/

/-- Status of one research phase. -/
inductive Status where
  | pending
  | active
  | complete
deriving DecidableEq

/-- The five fixed research phases, in pipeline order. -/
inductive Phase where
  | entityIdentification
  | securityAnalysis
  | complianceCheck
  | sourceGathering
  | researchSynthesis
deriving DecidableEq

/-- Statuses of the five phases (the `status` fields of the `phases` array;
titles, descriptions and icons are presentation-only and the wall-clock
`timestamp` field is not part of any compared state). -/
@[ext] structure Phases where
  entityIdentification : Status
  securityAnalysis : Status
  complianceCheck : Status
  sourceGathering : Status
  researchSynthesis : Status
deriving DecidableEq

/-- Projection of the status of one phase. -/
def statusOf (ph : Phases) : Phase → Status
  | .entityIdentification => ph.entityIdentification
  | .securityAnalysis => ph.securityAnalysis
  | .complianceCheck => ph.complianceCheck
  | .sourceGathering => ph.sourceGathering
  | .researchSynthesis => ph.researchSynthesis

/-- `updatePhaseStatus(phaseId, status)`: sets the named phase's status to
the given value unconditionally (the source maps over the phase list and
overwrites the matching entry's `status` field). -/
def updatePhaseStatus (ph : Phases) : Phase → Status → Phases
  | .entityIdentification, st => { ph with entityIdentification := st }
  | .securityAnalysis, st => { ph with securityAnalysis := st }
  | .complianceCheck, st => { ph with complianceCheck := st }
  | .sourceGathering, st => { ph with sourceGathering := st }
  | .researchSynthesis, st => { ph with researchSynthesis := st }

/-- The reconstructor's accumulated state: research brief, phase statuses,
findings, sources and trust score (the corresponding React state cells;
the raw `events` list is excluded, its entries carry wall-clock ids). -/
@[ext] structure ParseState where
  researchBrief : Option Json
  phases : Phases
  findings : List String
  sources : List String
  trustScore : Option Nat

/-- All five phases `pending`, empty findings and sources, no score, no
brief — the state installed when the modal opens. -/
def initState : ParseState :=
  { researchBrief := none
    phases :=
      { entityIdentification := .pending
        securityAnalysis := .pending
        complianceCheck := .pending
        sourceGathering := .pending
        researchSynthesis := .pending }
    findings := []
    sources := []
    trustScore := none }

/-- `data.write_research_brief?.research_brief` when truthy: the research
brief carried by an event, if any. -/
def briefOf (data : Json) : Option Json :=
  match getProp data "write_research_brief" with
  | some w =>
      match getProp w "research_brief" with
      | some b => if truthy b then some b else none
      | none => none
  | none => none

/-- `Object.keys(data)[0]`: the first own key of the decoded value (string
indices for nonempty strings and arrays, no keys for other primitives). -/
def nodeKey (data : Json) : Option String :=
  match data with
  | .obj [] => none
  | .obj (kv :: _) => some kv.1
  | .str s => if s = "" then none else some "0"
  | .arr [] => none
  | .arr (_ :: _) => some "0"
  | _ => none

/-- `nodeKey?.includes(kw)`: keyword test on the node name, `false` when
there is no key (optional chaining yields `undefined`, which is falsy). -/
def hasKw (data : Json) (kw : String) : Bool :=
  match nodeKey data with
  | some k => strContains k kw
  | none => false

/-- Node-name keyword test for the entity-identification branch. -/
def entKw (data : Json) : Bool := hasKw data "entity" || hasKw data "identify"

/-- Node-name keyword test for the security-analysis branch. -/
def secKw (data : Json) : Bool :=
  hasKw data "security" || hasKw data "vuln" || hasKw data "cve"

/-- Node-name keyword test for the compliance-check branch. -/
def compKw (data : Json) : Bool := hasKw data "compliance" || hasKw data "cert"

/-- Node-name keyword test for the source-gathering branch. -/
def srcKw (data : Json) : Bool :=
  hasKw data "source" || hasKw data "search" || hasKw data "web"

/-- Node-name keyword test for the research-synthesis branch. -/
def writeKw (data : Json) : Bool := hasKw data "write" || hasKw data "brief"

/-- One findings insertion: append `Vulnerability detected: <cve>` unless
that message is already present. -/
def addFinding (fs : List String) (cve : String) : List String :=
  let msg := "Vulnerability detected: " ++ cve
  if msg ∈ fs then fs else fs ++ [msg]

/-- One sources insertion: append the URL unless already present or the
list already holds 10 entries. -/
def addSource (ss : List String) (url : String) : List String :=
  if url ∉ ss ∧ ss.length < 10 then ss ++ [url] else ss

/-- Research-brief block of `parseEventData`: store the brief and mark
`research-synthesis` complete when the event carries one. -/
def briefStep (s : ParseState) (data : Json) : ParseState :=
  match briefOf data with
  | some b =>
      { s with
        researchBrief := some b
        phases := updatePhaseStatus s.phases .researchSynthesis .complete }
  | none => s

/-- Entity-identification block of `parseEventData`. -/
def entityStep (s : ParseState) (data : Json) : ParseState :=
  if entKw data then
    { s with phases := updatePhaseStatus s.phases .entityIdentification .active }
  else s

/-- Security-analysis block of `parseEventData`: advance phases and extract
CVE findings from the serialized event text. -/
def securityStep (s : ParseState) (data : Json) (t : String) : ParseState :=
  if secKw data then
    { s with
      phases :=
        updatePhaseStatus
          (updatePhaseStatus s.phases .entityIdentification .complete)
          .securityAnalysis .active
      findings := (scanCves t).foldl addFinding s.findings }
  else s

/-- Compliance-check block of `parseEventData`. -/
def complianceStep (s : ParseState) (data : Json) : ParseState :=
  if compKw data then
    { s with
      phases :=
        updatePhaseStatus
          (updatePhaseStatus s.phases .securityAnalysis .complete)
          .complianceCheck .active }
  else s

/-- Source-gathering block of `parseEventData`: advance phases and extract
URLs from the serialized event text. -/
def sourceStep (s : ParseState) (data : Json) (t : String) : ParseState :=
  if srcKw data then
    { s with
      phases :=
        updatePhaseStatus
          (updatePhaseStatus s.phases .complianceCheck .complete)
          .sourceGathering .active
      sources := (extractUrls t).foldl addSource s.sources }
  else s

/-- Research-synthesis block of `parseEventData`. -/
def writeStep (s : ParseState) (data : Json) : ParseState :=
  if writeKw data then
    { s with
      phases :=
        updatePhaseStatus
          (updatePhaseStatus s.phases .sourceGathering .complete)
          .researchSynthesis .active }
  else s

/-- Trust-score block of `parseEventData`: overwrite the score when the
trust-score pattern matches the serialized event text. -/
def scoreStep (s : ParseState) (t : String) : ParseState :=
  match scanScore t with
  | some n => { s with trustScore := some n }
  | none => s

/-- `parseEventData(data)`: the blocks above, in source order, on one
decoded event.  A `null` event leaves the state unchanged: the very first
statement dereferences `data.write_research_brief`, which throws a
`TypeError` on `null` that the caller catches before any update runs. -/
def parseEvent (s : ParseState) (data : Json) : ParseState :=
  if isNullJson data then s
  else
    let t := stringify data
    scoreStep
      (writeStep
        (sourceStep
          (complianceStep
            (securityStep
              (entityStep (briefStep s data) data)
              data t)
            data)
          data t)
        data)
      t

/-- Processing of a list of already-decoded events, in order. -/
def processEvents (s : ParseState) (evs : List Json) : ParseState :=
  evs.foldl parseEvent s

/-! ### Stream framing (`startStreaming` read loop)

The loop appends each decoded chunk to a buffer, splits the buffer on
newlines, keeps the trailing part (the text after the last newline) as the
new buffer, and feeds every complete line to the line dispatcher.
`JSON.parse` is a platform builtin, abstracted as `dec`. -/

/-- `buffer.split("\n")` on character lists: the parts between newlines, in
order; always nonempty, and the last part is the text after the final
newline (the whole text when there is none). -/
def splitNl : List Char → List (List Char)
  | [] => [[]]
  | c :: cs =>
      if c = '\n' then [] :: splitNl cs
      else
        match splitNl cs with
        | [] => [[c]]
        | l :: ls => (c :: l) :: ls

/-- All parts but the last (`lines` after `lines.pop()`). -/
def frontParts : List (List Char) → List (List Char)
  | [] => []
  | [_] => []
  | x :: xs => x :: frontParts xs

/-- The last part (`lines.pop() || ""`). -/
def lastPart : List (List Char) → List Char
  | [] => []
  | [x] => x
  | _ :: xs => lastPart xs

/-- Dispatch of one complete line: blank and heartbeat lines are skipped,
`event:` lines are consumed without effect, `data:` lines have their payload
decoded and parsed (a decode failure is logged and skipped), anything else
is ignored. -/
def processLine (dec : String → Option Json) (s : ParseState) (line : List Char) :
    ParseState :=
  if trimChars line = [] then s
  else if (": heartbeat".data).isPrefixOf line then s
  else if ("event:".data).isPrefixOf line then s
  else if ("data:".data).isPrefixOf line then
    match dec (String.mk (trimChars (line.drop 5))) with
    | some data => parseEvent s data
    | none => s
  else s

/-- The buffer of not-yet-terminated text together with the parse state. -/
@[ext] structure StreamState where
  buffer : List Char
  ps : ParseState

/-- One iteration of the read loop on one decoded chunk: extend the buffer,
split on newlines, keep the trailing part as the new buffer and process the
complete lines in order. -/
def processChunk (dec : String → Option Json) (st : StreamState)
    (chunk : List Char) : StreamState :=
  let parts := splitNl (st.buffer ++ chunk)
  { buffer := lastPart parts
    ps := (frontParts parts).foldl (processLine dec) st.ps }

/-- The whole read loop over a sequence of chunks. -/
def processStream (dec : String → Option Json) (st : StreamState)
    (chunks : List (List Char)) : StreamState :=
  chunks.foldl (processChunk dec) st

/-- Empty buffer over the initial parse state. -/
def initStream : StreamState :=
  { buffer := [], ps := initState }

/-- A log split into 1-character chunks. -/
def oneByteChunks (log : List Char) : List (List Char) :=
  log.map (fun c => [c])

/-- Prepending text onto the first part of a split (how the parts of
`splitNl (a ++ b)` are assembled from the parts of `a` and of `b`). -/
def consHead (x : List Char) : List (List Char) → List (List Char)
  | [] => [x]
  | y :: ys => (x ++ y) :: ys

/-! ### Entity matcher and cache resolution (`app/api/research/route.ts`) -/

/-- One document of the `entities` collection, with its id and the fields
the resolver reads (`name` plus the four possible cache-id fields). -/
structure Entity where
  id : String
  name : Option String
  cacheId : Option String
  cacheIdSnake : Option String
  cacheDocId : Option String
  cacheDocIdSnake : Option String
deriving DecidableEq

/-- `data.name?.toLowerCase() || ""`: the normalized stored name of a
registry entry. -/
def storedName (e : Entity) : String :=
  (e.name.map strLower).getD ""

/-- A key-value document collection; `docGet` is `collection.doc(k).get()`
(the first binding for `k` wins, matching unique document ids). -/
def docGet (coll : List (String × Json)) (k : String) : Option Json :=
  match coll with
  | [] => none
  | kv :: rest => if kv.1 = k then some kv.2 else docGet rest k

/-- Whether a registry entry matches the normalized key: exact equality of
the stored name, or bidirectional substring containment. -/
def entityMatches (key : String) (e : Entity) : Bool :=
  storedName e = key ||
    strContains (storedName e) key || strContains key (storedName e)

/-- The matcher loop of the research route: walk the registry in order; the
first entry whose stored name equals the key, or failing that contains it /
is contained in it, wins; `none` when no entry matches. -/
def matchEntity (key : String) (registry : List Entity) : Option Entity :=
  match registry with
  | [] => none
  | e :: rest =>
      if storedName e = key then some e
      else if strContains (storedName e) key || strContains key (storedName e) then
        some e
      else matchEntity key rest

/-- `x || null` coalescing on an optional JSON field: a missing or falsy
value becomes `none`. -/
def orNull (o : Option Json) : Option Json :=
  match o with
  | some v => if truthy v then some v else none
  | none => none

/-- `possibleCacheIds`: candidate cache document ids of a matched entity —
the four cache-id fields, the document id and the name, with absent and
empty values removed (`filter(Boolean)`) and each lower-cased. -/
def possibleCacheIds (e : Entity) : List String :=
  (([e.cacheId, e.cacheIdSnake, e.cacheDocId, e.cacheDocIdSnake,
      some e.id, e.name].filterMap id).filter (fun v => v ≠ "")).map strLower

/-- First candidate cache id that hits the cache, with its document. -/
def lookupByEntity (cache : List (String × Json)) (e : Entity) :
    Option (String × Json) :=
  lookupFirst (possibleCacheIds e)
where
  lookupFirst : List String → Option (String × Json)
    | [] => none
    | cid :: rest =>
        match docGet cache cid with
        | some doc => some (cid, doc)
        | none => lookupFirst rest

/-- Outcome of the research route's resolution, as distinguishable response
shapes: a direct cache hit, a hit through a matched entity (the response
additionally carries the entity), or not found. -/
inductive ResolveOutcome where
  | foundDirect (reportId : String) (cachedAt : Option Json) (entityName : String)
  | foundViaEntity (reportId : String) (cachedAt : Option Json)
      (entityName : String) (entity : Entity)
  | notFound (entityName : String)

/-- Steps 2–5 of the research route's `POST`, from the extracted entity
name onward (the extraction call is an external collaborator): lower-case
the name, try the cache directly, otherwise run the matcher and try the
candidate cache ids of a matched entity, otherwise report not found. -/
def resolve (cache : List (String × Json)) (registry : List Entity)
    (entityName : String) : ResolveOutcome :=
  let key := strLower entityName
  match docGet cache key with
  | some doc => .foundDirect key (orNull (getProp doc "cached_at")) entityName
  | none =>
      match matchEntity key registry with
      | some ent =>
          match lookupByEntity cache ent with
          | some (cid, doc) =>
              .foundViaEntity cid (orNull (getProp doc "cached_at")) entityName ent
          | none => .notFound entityName
      | none => .notFound entityName

/-! ### Report lookup and cache store -/

/-- `app/api/reports/[id]/route.ts` `GET`: fetch the cache document under
the lower-cased id. -/
def lookupReport (cache : List (String × Json)) (id : String) : Option Json :=
  docGet cache (strLower id)

/-- Modelled from the spec: the Cache Gateway operation
`store(key, report, sourceQuery)` writes the document under `key`.  The
write-back after a completed research run is performed by the external
research backend and has no implementation under `src/`; per the spec it
stores the report under the same normalized key that `lookup` uses.
Prepending models document overwrite, since `docGet` takes the first
binding. -/
def cacheStore (cache : List (String × Json)) (key : String) (doc : Json) :
    List (String × Json) :=
  (key, doc) :: cache

/-! ### Access records (`app/api/user/accessed-reports/route.ts` `POST`) -/

/-- One entry of a user's `accessed_reports` array. -/
structure AccessRecord where
  entityName : String
  accessedAt : String
  trustScore : Option Json
  productName : Json
  vendor : Option Json

/-- Firestore deep value equality on access records. -/
def recBeq (a b : AccessRecord) : Bool :=
  a.entityName = b.entityName && a.accessedAt = b.accessedAt &&
    (match a.trustScore, b.trustScore with
     | some x, some y => Json.beq x y
     | none, none => true
     | _, _ => false) &&
    Json.beq a.productName b.productName &&
    (match a.vendor, b.vendor with
     | some x, some y => Json.beq x y
     | none, none => true
     | _, _ => false)

/-- `FieldValue.arrayUnion(x)` on an array field: append `x` unless an
element deep-equal to it is already present. -/
def arrayUnion (l : List AccessRecord) (x : AccessRecord) : List AccessRecord :=
  if l.any (recBeq x) then l else l ++ [x]

/-- The access record built by the route: lower-cased entity name, the
ISO timestamp (taken as an argument, it is wall clock in the source),
`report.trust_score.score || null`, `report.product_name || entityName`
and `report.vendor || null` from the cached document. -/
def mkAccessRecord (entityName now : String) (cdoc : Json) : AccessRecord :=
  { entityName := strLower entityName
    accessedAt := now
    trustScore :=
      orNull ((getProp cdoc "report").bind fun r =>
        (getProp r "trust_score").bind fun ts => getProp ts "score")
    productName :=
      match orNull ((getProp cdoc "report").bind fun r => getProp r "product_name") with
      | some v => v
      | none => .str entityName
    vendor := orNull ((getProp cdoc "report").bind fun r => getProp r "vendor") }

/-- The per-user store: user id to `accessed_reports` array. -/
def userHistory (users : List (String × List AccessRecord)) (uid : String) :
    List AccessRecord :=
  match users with
  | [] => []
  | kv :: rest => if kv.1 = uid then kv.2 else userHistory rest uid

/-- Merge-write of one user's `accessed_reports` array. -/
def setUserHistory (users : List (String × List AccessRecord)) (uid : String)
    (h : List AccessRecord) : List (String × List AccessRecord) :=
  match users with
  | [] => [(uid, h)]
  | kv :: rest =>
      if kv.1 = uid then (uid, h) :: rest else kv :: setUserHistory rest uid h

/-- Response outcomes of the accessed-reports `POST`. -/
inductive RecordOutcome where
  | ok
  | invalid
  | notFound
deriving DecidableEq

/-- The accessed-reports `POST`: reject empty ids, fail with not-found when
the lower-cased entity name misses the cache (leaving the user store
untouched), otherwise array-union exactly the record built from the cached
document into the user's history. -/
def recordAccess (cache : List (String × Json))
    (users : List (String × List AccessRecord))
    (userId entityName now : String) :
    RecordOutcome × List (String × List AccessRecord) :=
  if userId = "" ∨ entityName = "" then (.invalid, users)
  else
    match docGet cache (strLower entityName) with
    | none => (.notFound, users)
    | some cdoc =>
        let rec0 := mkAccessRecord entityName now cdoc
        (.ok, setUserHistory users userId (arrayUnion (userHistory users userId) rec0))

/-! ### Derived per-event write descriptions

These definitions describe the net effect of one event on each state
component; theorems below prove that `parseEventData` realizes them. -/

/-- The net status written to phase `p` by one event (the last branch of
`parseEventData` that writes `p` wins within the event); `none` when no
branch writes `p`. -/
def statusWrite (e : Json) : Phase → Option Status := fun p =>
  if isNullJson e then none
  else
    match p with
    | .entityIdentification =>
        if secKw e then some .complete else if entKw e then some .active else none
    | .securityAnalysis =>
        if compKw e then some .complete else if secKw e then some .active else none
    | .complianceCheck =>
        if srcKw e then some .complete else if compKw e then some .active else none
    | .sourceGathering =>
        if writeKw e then some .complete else if srcKw e then some .active else none
    | .researchSynthesis =>
        if writeKw e then some .active
        else if (briefOf e).isSome then some .complete else none

/-- The research brief carried by one event as processed (null events are
skipped entirely). -/
def briefWrite (e : Json) : Option Json :=
  if isNullJson e then none else briefOf e

/-- The trust score captured from one event as processed. -/
def scoreWrite (e : Json) : Option Nat :=
  if isNullJson e then none else scanScore (stringify e)

/-- Insertion of one finding message (dedup before append). -/
def addMsg (fs : List String) (msg : String) : List String :=
  if msg ∈ fs then fs else fs ++ [msg]

/-- The finding messages one event contributes (empty unless the
security-analysis branch fires). -/
def findingMsgs (e : Json) : List String :=
  if isNullJson e = false ∧ secKw e then
    (scanCves (stringify e)).map (fun cve => "Vulnerability detected: " ++ cve)
  else []

/-- The URL candidates one event contributes (empty unless the
source-gathering branch fires). -/
def urlCands (e : Json) : List String :=
  if isNullJson e = false ∧ srcKw e then extractUrls (stringify e) else []

/-- The last value some event of `l` writes through `w`, scanning from the
end of the list. -/
def lastWrite {α : Type} (w : Json → Option α) (l : List Json) : Option α :=
  l.reverse.findSome? w

/-! ### Concrete fixtures used by counterexamples and witnesses -/

/-- An event whose single node key carries the `security` keyword. -/
def secEvent : Json := .obj [("security_check", .str "x")]

/-- An event whose single node key carries the `entity` keyword. -/
def entEvent : Json := .obj [("entity_lookup", .str "x")]

/-- An event whose node key carries only the `compliance` keyword but whose
payload text contains both a CVE identifier and an absolute URL. -/
def compEvent : Json :=
  .obj [("compliance_node", .str "CVE-2024-1234 at https://a.example/x")]

/-- An event claiming a trust score above 100. -/
def bigScoreEvent : Json := .obj [("node", .str "trust_score: 150")]

/-- A decoder that accepts no payload (used to instantiate the abstract
`JSON.parse` parameter in witnesses). -/
def decNone : String → Option Json := fun _ => none

/-- A decoder that accepts exactly the payload `demo` (used to instantiate
the abstract `JSON.parse` parameter in witnesses). -/
def decDemo : String → Option Json := fun s =>
  if s = "demo" then some (Json.obj [("security_scan", .str "CVE-2025-0001")]) else none

/-- A registry entry that does not match the key `slack`. -/
def zoomEntity : Entity :=
  { id := "ent-zoom", name := some "Zoom", cacheId := none, cacheIdSnake := none
    cacheDocId := none, cacheDocIdSnake := none }

/-- A registry entry whose stored name contains `slack` and whose cache-id
field names a dedicated cache document. -/
def slackEntity : Entity :=
  { id := "ent-1", name := some "Slack Technologies", cacheId := some "slack-trust-001"
    cacheIdSnake := none, cacheDocId := none, cacheDocIdSnake := none }

/-- A cache holding both a report under the normalized query key and a
distinct report under the entity's cache id. -/
def resCache : List (String × Json) :=
  [("slack", .obj []), ("slack-trust-001", .obj [])]

/-- A cached report document with trust score, product name and vendor. -/
def repDoc : Json :=
  .obj [("report", .obj
    [("trust_score", .obj [("score", .num 72)]),
     ("product_name", .str "Slack"),
     ("vendor", .str "Salesforce")])]

/-- A cache holding `repDoc` under the key `slack`. -/
def repCache : List (String × Json) := [("slack", repDoc)]

/-- The resolution order asserted by the spec — Entity Matcher before any
Cache Gateway lookup — written out only to be compared against the
implementation's `resolve`: resolve the key against the registry first;
a matched entity is looked up through its candidate cache ids, an
unmatched key through the direct cache key. -/
def resolveSpecOrder (cache : List (String × Json)) (registry : List Entity)
    (entityName : String) : ResolveOutcome :=
  let key := strLower entityName
  match matchEntity key registry with
  | some ent =>
      match lookupByEntity cache ent with
      | some (cid, doc) =>
          .foundViaEntity cid (orNull (getProp doc "cached_at")) entityName ent
      | none => .notFound entityName
  | none =>
      match docGet cache key with
      | some doc => .foundDirect key (orNull (getProp doc "cached_at")) entityName
      | none => .notFound entityName

/-! ### Helper lemmas: the effect of one event on each state component -/

theorem statusOf_update (ph : Phases) (q : Phase) (st : Status) (p : Phase) :
    statusOf (updatePhaseStatus ph q st) p = if p = q then st else statusOf ph p := by
  cases p <;> cases q <;> simp [statusOf, updatePhaseStatus]

theorem briefStep_phases (s : ParseState) (e : Json) :
    (briefStep s e).phases =
      if (briefOf e).isSome then
        updatePhaseStatus s.phases .researchSynthesis .complete
      else s.phases := by
  unfold briefStep; cases h : briefOf e <;> simp [h]

theorem briefStep_brief (s : ParseState) (e : Json) :
    (briefStep s e).researchBrief =
      match briefOf e with
      | some b => some b
      | none => s.researchBrief := by
  unfold briefStep; cases h : briefOf e <;> simp [h]

theorem briefStep_findings (s : ParseState) (e : Json) :
    (briefStep s e).findings = s.findings := by
  unfold briefStep; cases h : briefOf e <;> simp [h]

theorem briefStep_sources (s : ParseState) (e : Json) :
    (briefStep s e).sources = s.sources := by
  unfold briefStep; cases h : briefOf e <;> simp [h]

theorem briefStep_score (s : ParseState) (e : Json) :
    (briefStep s e).trustScore = s.trustScore := by
  unfold briefStep; cases h : briefOf e <;> simp [h]

theorem entityStep_phases (s : ParseState) (e : Json) :
    (entityStep s e).phases =
      if entKw e then updatePhaseStatus s.phases .entityIdentification .active
      else s.phases := by
  unfold entityStep; split <;> rfl

theorem entityStep_rest (s : ParseState) (e : Json) :
    (entityStep s e).researchBrief = s.researchBrief ∧
    (entityStep s e).findings = s.findings ∧
    (entityStep s e).sources = s.sources ∧
    (entityStep s e).trustScore = s.trustScore := by
  unfold entityStep; split <;> simp

theorem securityStep_phases (s : ParseState) (e : Json) (t : String) :
    (securityStep s e t).phases =
      if secKw e then
        updatePhaseStatus
          (updatePhaseStatus s.phases .entityIdentification .complete)
          .securityAnalysis .active
      else s.phases := by
  unfold securityStep; split <;> rfl

theorem securityStep_findings (s : ParseState) (e : Json) (t : String) :
    (securityStep s e t).findings =
      if secKw e then (scanCves t).foldl addFinding s.findings else s.findings := by
  unfold securityStep; split <;> rfl

theorem securityStep_rest (s : ParseState) (e : Json) (t : String) :
    (securityStep s e t).researchBrief = s.researchBrief ∧
    (securityStep s e t).sources = s.sources ∧
    (securityStep s e t).trustScore = s.trustScore := by
  unfold securityStep; split <;> simp

theorem complianceStep_phases (s : ParseState) (e : Json) :
    (complianceStep s e).phases =
      if compKw e then
        updatePhaseStatus
          (updatePhaseStatus s.phases .securityAnalysis .complete)
          .complianceCheck .active
      else s.phases := by
  unfold complianceStep; split <;> rfl

theorem complianceStep_rest (s : ParseState) (e : Json) :
    (complianceStep s e).researchBrief = s.researchBrief ∧
    (complianceStep s e).findings = s.findings ∧
    (complianceStep s e).sources = s.sources ∧
    (complianceStep s e).trustScore = s.trustScore := by
  unfold complianceStep; split <;> simp

theorem sourceStep_phases (s : ParseState) (e : Json) (t : String) :
    (sourceStep s e t).phases =
      if srcKw e then
        updatePhaseStatus
          (updatePhaseStatus s.phases .complianceCheck .complete)
          .sourceGathering .active
      else s.phases := by
  unfold sourceStep; split <;> rfl

theorem sourceStep_sources (s : ParseState) (e : Json) (t : String) :
    (sourceStep s e t).sources =
      if srcKw e then (extractUrls t).foldl addSource s.sources else s.sources := by
  unfold sourceStep; split <;> rfl

theorem sourceStep_rest (s : ParseState) (e : Json) (t : String) :
    (sourceStep s e t).researchBrief = s.researchBrief ∧
    (sourceStep s e t).findings = s.findings ∧
    (sourceStep s e t).trustScore = s.trustScore := by
  unfold sourceStep; split <;> simp

theorem writeStep_phases (s : ParseState) (e : Json) :
    (writeStep s e).phases =
      if writeKw e then
        updatePhaseStatus
          (updatePhaseStatus s.phases .sourceGathering .complete)
          .researchSynthesis .active
      else s.phases := by
  unfold writeStep; split <;> rfl

theorem writeStep_rest (s : ParseState) (e : Json) :
    (writeStep s e).researchBrief = s.researchBrief ∧
    (writeStep s e).findings = s.findings ∧
    (writeStep s e).sources = s.sources ∧
    (writeStep s e).trustScore = s.trustScore := by
  unfold writeStep; split <;> simp

theorem scoreStep_score (s : ParseState) (t : String) :
    (scoreStep s t).trustScore =
      match scanScore t with
      | some n => some n
      | none => s.trustScore := by
  unfold scoreStep; cases h : scanScore t <;> simp [h]

theorem scoreStep_rest (s : ParseState) (t : String) :
    (scoreStep s t).researchBrief = s.researchBrief ∧
    (scoreStep s t).phases = s.phases ∧
    (scoreStep s t).findings = s.findings ∧
    (scoreStep s t).sources = s.sources := by
  unfold scoreStep; cases h : scanScore t <;> simp [h]

theorem parseEvent_status (s : ParseState) (e : Json) (p : Phase) :
    statusOf (parseEvent s e).phases p = (statusWrite e p).getD (statusOf s.phases p) := by
  by_cases hn : isNullJson e
  · simp [parseEvent, hn, statusWrite]
  · simp only [parseEvent, hn, if_false, Bool.false_eq_true]
    rw [(scoreStep_rest _ _).2.1, writeStep_phases, sourceStep_phases,
      complianceStep_phases, securityStep_phases, entityStep_phases, briefStep_phases]
    simp only [statusWrite, hn, Bool.false_eq_true, if_false]
    cases p <;>
      rcases Bool.eq_false_or_eq_true (secKw e) with h1 | h1 <;>
      rcases Bool.eq_false_or_eq_true (entKw e) with h2 | h2 <;>
      rcases Bool.eq_false_or_eq_true (compKw e) with h3 | h3 <;>
      rcases Bool.eq_false_or_eq_true (srcKw e) with h4 | h4 <;>
      rcases Bool.eq_false_or_eq_true (writeKw e) with h5 | h5 <;>
      rcases Bool.eq_false_or_eq_true ((briefOf e).isSome) with h6 | h6 <;>
      rw [h1, h2, h3, h4, h5, h6] <;> rfl

theorem parseEvent_brief (s : ParseState) (e : Json) :
    (parseEvent s e).researchBrief =
      match briefWrite e with
      | some b => some b
      | none => s.researchBrief := by
  by_cases hn : isNullJson e
  · simp [parseEvent, hn, briefWrite]
  · simp only [parseEvent, hn, if_false, Bool.false_eq_true, briefWrite]
    rw [(scoreStep_rest _ _).1, (writeStep_rest _ _).1, (sourceStep_rest _ _ _).1,
      (complianceStep_rest _ _).1, (securityStep_rest _ _ _).1, (entityStep_rest _ _).1,
      briefStep_brief]

theorem parseEvent_score (s : ParseState) (e : Json) :
    (parseEvent s e).trustScore =
      match scoreWrite e with
      | some n => some n
      | none => s.trustScore := by
  by_cases hn : isNullJson e
  · simp [parseEvent, hn, scoreWrite]
  · simp only [parseEvent, hn, if_false, Bool.false_eq_true, scoreWrite]
    rw [scoreStep_score]
    rw [(writeStep_rest _ _).2.2.2, (sourceStep_rest _ _ _).2.2,
      (complianceStep_rest _ _).2.2.2, (securityStep_rest _ _ _).2.2,
      (entityStep_rest _ _).2.2.2, briefStep_score]

theorem foldl_addFinding_eq (fs : List String) (cves : List String) :
    cves.foldl addFinding fs =
      (cves.map (fun cve => "Vulnerability detected: " ++ cve)).foldl addMsg fs := by
  rw [List.foldl_map]
  rfl

theorem parseEvent_findings (s : ParseState) (e : Json) :
    (parseEvent s e).findings = (findingMsgs e).foldl addMsg s.findings := by
  by_cases hn : isNullJson e
  · simp [parseEvent, hn, findingMsgs]
  · simp only [parseEvent, hn, if_false, Bool.false_eq_true]
    rw [(scoreStep_rest _ _).2.2.1, (writeStep_rest _ _).2.1, (sourceStep_rest _ _ _).2.1,
      (complianceStep_rest _ _).2.1, securityStep_findings,
      (entityStep_rest _ _).2.1, briefStep_findings]
    simp only [findingMsgs, hn, Bool.false_eq_true, false_and, true_and,
      Bool.not_eq_true]
    rcases Bool.eq_false_or_eq_true (secKw e) with h1 | h1 <;> rw [h1] <;>
      simp [foldl_addFinding_eq]

theorem parseEvent_sources (s : ParseState) (e : Json) :
    (parseEvent s e).sources = (urlCands e).foldl addSource s.sources := by
  by_cases hn : isNullJson e
  · simp [parseEvent, hn, urlCands]
  · simp only [parseEvent, hn, if_false, Bool.false_eq_true]
    rw [(scoreStep_rest _ _).2.2.2, (writeStep_rest _ _).2.2.1, sourceStep_sources,
      (complianceStep_rest _ _).2.2.1, (securityStep_rest _ _ _).2.1,
      (entityStep_rest _ _).2.2.1, briefStep_sources]
    simp only [urlCands, hn, Bool.false_eq_true, Bool.not_eq_true]
    rcases Bool.eq_false_or_eq_true (srcKw e) with h1 | h1 <;> rw [h1] <;> simp

/-! ### Last-write characterization across an event list -/

theorem findSome?_append {α β : Type} (f : α → Option β) (l₁ l₂ : List α) :
    (l₁ ++ l₂).findSome? f =
      match l₁.findSome? f with
      | some b => some b
      | none => l₂.findSome? f := by
  induction l₁ with
  | nil => simp [List.findSome?]
  | cons a l ih =>
      simp only [List.cons_append, List.findSome?]
      cases f a <;> simp [ih]

theorem lastWrite_cons {α : Type} (w : Json → Option α) (e : Json) (l : List Json) :
    lastWrite w (e :: l) =
      match lastWrite w l with
      | some a => some a
      | none => w e := by
  simp only [lastWrite, List.reverse_cons, findSome?_append]
  cases l.reverse.findSome? w
  · simp only [List.findSome?]
    cases w e <;> rfl
  · simp [List.findSome?]

theorem lastWrite_doubled {α : Type} (w : Json → Option α) (l : List Json) :
    lastWrite w (l ++ l) = lastWrite w l := by
  simp only [lastWrite, List.reverse_append, findSome?_append]
  cases h : l.reverse.findSome? w <;> simp [h]

theorem processEvents_absWrite {α β : Type} (proj : ParseState → α)
    (w : Json → Option β) (merge : Option β → α → α)
    (hnone : ∀ a, merge none a = a)
    (hsome : ∀ b a a', merge (some b) a = merge (some b) a')
    (hstep : ∀ s e, proj (parseEvent s e) = merge (w e) (proj s)) :
    ∀ (l : List Json) (s : ParseState),
      proj (processEvents s l) = merge (lastWrite w l) (proj s) := by
  intro l
  induction l with
  | nil => intro s; simp [processEvents, lastWrite, List.findSome?, hnone]
  | cons e l ih =>
    intro s
    have hfold : processEvents s (e :: l) = processEvents (parseEvent s e) l := rfl
    rw [hfold, ih, hstep, lastWrite_cons]
    cases h : lastWrite w l with
    | none => simp [hnone]
    | some a => exact hsome a _ _

/-- Across an event list, the research brief is that of the last
brief-carrying event, else the starting value. -/
theorem processEvents_brief (l : List Json) (s : ParseState) :
    (processEvents s l).researchBrief =
      match lastWrite briefWrite l with
      | some b => some b
      | none => s.researchBrief := by
  exact processEvents_absWrite ParseState.researchBrief briefWrite
    (fun o a => match o with | some b => some b | none => a)
    (fun a => rfl) (fun b a a' => rfl) parseEvent_brief l s

/-- Across an event list, the trust score is the capture of the last
matching event, else the starting value. -/
theorem processEvents_score (l : List Json) (s : ParseState) :
    (processEvents s l).trustScore =
      match lastWrite scoreWrite l with
      | some n => some n
      | none => s.trustScore := by
  exact processEvents_absWrite ParseState.trustScore scoreWrite
    (fun o a => match o with | some n => some n | none => a)
    (fun a => rfl) (fun b a a' => rfl) parseEvent_score l s

/-- Across an event list, each phase's status is the net write of the last
event that writes it, else the starting status. -/
theorem processEvents_status (l : List Json) (s : ParseState) (p : Phase) :
    statusOf (processEvents s l).phases p =
      (lastWrite (fun e => statusWrite e p) l).getD (statusOf s.phases p) := by
  exact processEvents_absWrite (fun s => statusOf s.phases p)
    (fun e => statusWrite e p) (fun o a => o.getD a)
    (fun a => rfl) (fun b a a' => rfl) (fun s e => parseEvent_status s e p) l s

/-- Replaying an event list on top of its own result leaves an
absolute-write component unchanged. -/
theorem processEvents_absWrite_replay {α β : Type} (proj : ParseState → α)
    (w : Json → Option β) (merge : Option β → α → α)
    (hnone : ∀ a, merge none a = a)
    (hsome : ∀ b a a', merge (some b) a = merge (some b) a')
    (hstep : ∀ s e, proj (parseEvent s e) = merge (w e) (proj s))
    (l : List Json) (s : ParseState) :
    proj (processEvents (processEvents s l) l) = proj (processEvents s l) := by
  rw [processEvents_absWrite proj w merge hnone hsome hstep l (processEvents s l),
    processEvents_absWrite proj w merge hnone hsome hstep l s]
  cases h : lastWrite w l with
  | none => simp [hnone]
  | some b => exact hsome b _ _

/-! ### Findings and sources: monotone growth, coverage, stability -/

theorem mem_addMsg (fs : List String) (m x : String) (hx : x ∈ fs) :
    x ∈ addMsg fs m := by
  unfold addMsg; split
  · exact hx
  · exact List.mem_append_left _ hx

theorem mem_addMsg_self (fs : List String) (m : String) : m ∈ addMsg fs m := by
  unfold addMsg; split
  · assumption
  · exact List.mem_append_right _ (List.mem_singleton.mpr rfl)

theorem mem_foldl_addMsg (ms : List String) (fs : List String) (x : String)
    (hx : x ∈ fs) : x ∈ ms.foldl addMsg fs := by
  induction ms generalizing fs with
  | nil => exact hx
  | cons m ms ih => exact ih _ (mem_addMsg _ _ _ hx)

theorem mem_foldl_addMsg_self (ms : List String) (fs : List String) (m : String)
    (hm : m ∈ ms) : m ∈ ms.foldl addMsg fs := by
  induction ms generalizing fs with
  | nil => cases hm
  | cons m' ms ih =>
      rcases List.mem_cons.mp hm with h | h
      · subst h
        simp only [List.foldl_cons]
        exact mem_foldl_addMsg ms (addMsg fs m) m (mem_addMsg_self fs m)
      · exact ih _ h

theorem foldl_addMsg_stable (ms : List String) (fs : List String)
    (h : ∀ m ∈ ms, m ∈ fs) : ms.foldl addMsg fs = fs := by
  induction ms with
  | nil => rfl
  | cons m ms ih =>
      have hm : addMsg fs m = fs := by
        unfold addMsg; rw [if_pos (h m (List.mem_cons_self _ _))]
      simp only [List.foldl_cons, hm]
      exact ih (fun m' hm' => h m' (List.mem_cons_of_mem _ hm'))

theorem mem_addSource (ss : List String) (u x : String) (hx : x ∈ ss) :
    x ∈ addSource ss u := by
  unfold addSource; split
  · exact List.mem_append_left _ hx
  · exact hx

theorem length_addSource (ss : List String) (u : String) :
    ss.length ≤ (addSource ss u).length := by
  unfold addSource; split
  · simp
  · exact le_refl _

theorem mem_foldl_addSource (us : List String) (ss : List String) (x : String)
    (hx : x ∈ ss) : x ∈ us.foldl addSource ss := by
  induction us generalizing ss with
  | nil => exact hx
  | cons u us ih => exact ih _ (mem_addSource _ _ _ hx)

theorem length_foldl_addSource (us : List String) (ss : List String) :
    ss.length ≤ (us.foldl addSource ss).length := by
  induction us generalizing ss with
  | nil => exact le_refl _
  | cons u us ih => exact le_trans (length_addSource _ _) (ih _)

theorem foldl_addSource_sat (us : List String) (ss : List String) (u : String)
    (hu : u ∈ us) :
    u ∈ us.foldl addSource ss ∨ 10 ≤ (us.foldl addSource ss).length := by
  induction us generalizing ss with
  | nil => cases hu
  | cons u' us ih =>
      rcases List.mem_cons.mp hu with h | h
      · subst h
        simp only [List.foldl_cons]
        by_cases hin : u ∈ ss
        · exact Or.inl
            (mem_foldl_addSource us (addSource ss u) u (mem_addSource ss u u hin))
        · by_cases hlen : ss.length < 10
          · refine Or.inl (mem_foldl_addSource us (addSource ss u) u ?_)
            unfold addSource
            rw [if_pos ⟨hin, hlen⟩]
            exact List.mem_append_right _ (List.mem_singleton.mpr rfl)
          · refine Or.inr ?_
            have h1 : 10 ≤ ss.length := le_of_not_lt hlen
            have h2 : ss.length ≤ (addSource ss u).length := length_addSource _ _
            exact le_trans (le_trans h1 h2) (length_foldl_addSource us _)
      · simp only [List.foldl_cons]
        exact ih _ h

theorem foldl_addSource_stable (us : List String) (ss : List String)
    (h : ∀ u ∈ us, u ∈ ss ∨ 10 ≤ ss.length) : us.foldl addSource ss = ss := by
  induction us with
  | nil => rfl
  | cons u us ih =>
      have hu : addSource ss u = ss := by
        unfold addSource
        rcases h u (List.mem_cons_self _ _) with hin | hlen
        · rw [if_neg]; intro hc; exact hc.1 hin
        · rw [if_neg]; intro hc; exact absurd hc.2 (not_lt_of_le hlen)
      simp only [List.foldl_cons, hu]
      exact ih (fun u' hu' => h u' (List.mem_cons_of_mem _ hu'))

/-- Findings only grow across processing. -/
theorem processEvents_findings_mono (l : List Json) (s : ParseState) (x : String)
    (hx : x ∈ s.findings) : x ∈ (processEvents s l).findings := by
  induction l generalizing s with
  | nil => exact hx
  | cons e l ih =>
      have : x ∈ (parseEvent s e).findings := by
        rw [parseEvent_findings]; exact mem_foldl_addMsg _ _ _ hx
      exact ih _ this

/-- Every finding message of every event of the list is present after the
list is processed. -/
theorem processEvents_findings_covers (l : List Json) (s : ParseState) (e : Json)
    (he : e ∈ l) (m : String) (hm : m ∈ findingMsgs e) :
    m ∈ (processEvents s l).findings := by
  induction l generalizing s with
  | nil => cases he
  | cons e' l ih =>
      rcases List.mem_cons.mp he with h | h
      · subst h
        have hstep : m ∈ (parseEvent s e).findings := by
          rw [parseEvent_findings]
          exact mem_foldl_addMsg_self (findingMsgs e) s.findings m hm
        show m ∈ (processEvents (parseEvent s e) l).findings
        exact processEvents_findings_mono l (parseEvent s e) m hstep
      · show m ∈ (processEvents (parseEvent s e') l).findings
        exact ih _ h

/-- Source membership only grows across processing. -/
theorem processEvents_sources_mono (l : List Json) (s : ParseState) (x : String)
    (hx : x ∈ s.sources) : x ∈ (processEvents s l).sources := by
  induction l generalizing s with
  | nil => exact hx
  | cons e l ih =>
      have : x ∈ (parseEvent s e).sources := by
        rw [parseEvent_sources]; exact mem_foldl_addSource _ _ _ hx
      exact ih _ this

/-- Source count never shrinks across processing. -/
theorem processEvents_sources_length (l : List Json) (s : ParseState) :
    s.sources.length ≤ (processEvents s l).sources.length := by
  induction l generalizing s with
  | nil => exact le_refl _
  | cons e l ih =>
      refine le_trans ?_ (ih (parseEvent s e))
      rw [parseEvent_sources]
      exact length_foldl_addSource _ _

/-- After processing, every URL candidate of every event is either present
or the source list is full. -/
theorem processEvents_sources_sat (l : List Json) (s : ParseState) (e : Json)
    (he : e ∈ l) (u : String) (hu : u ∈ urlCands e) :
    u ∈ (processEvents s l).sources ∨ 10 ≤ (processEvents s l).sources.length := by
  induction l generalizing s with
  | nil => cases he
  | cons e' l ih =>
      rcases List.mem_cons.mp he with h | h
      · subst h
        have hs : u ∈ (parseEvent s e).sources ∨ 10 ≤ (parseEvent s e).sources.length := by
          rw [parseEvent_sources]
          exact foldl_addSource_sat (urlCands e) s.sources u hu
        show u ∈ (processEvents (parseEvent s e) l).sources ∨
          10 ≤ (processEvents (parseEvent s e) l).sources.length
        rcases hs with hmem | hlen
        · exact Or.inl (processEvents_sources_mono l (parseEvent s e) u hmem)
        · exact Or.inr (le_trans hlen (processEvents_sources_length l (parseEvent s e)))
      · show u ∈ (processEvents (parseEvent s e') l).sources ∨
          10 ≤ (processEvents (parseEvent s e') l).sources.length
        exact ih _ h

/-- Replaying a list whose finding messages are all already present leaves
the findings component unchanged. -/
theorem processEvents_findings_stable (l : List Json) (t : ParseState)
    (h : ∀ e ∈ l, ∀ m ∈ findingMsgs e, m ∈ t.findings) :
    (processEvents t l).findings = t.findings := by
  induction l generalizing t with
  | nil => rfl
  | cons e l ih =>
      have h1 : (parseEvent t e).findings = t.findings := by
        rw [parseEvent_findings]
        exact foldl_addMsg_stable _ _ (h e (List.mem_cons_self _ _))
      have h2 : (processEvents (parseEvent t e) l).findings = (parseEvent t e).findings := by
        refine ih _ (fun e' he' m hm => ?_)
        rw [h1]; exact h e' (List.mem_cons_of_mem _ he') m hm
      calc (processEvents t (e :: l)).findings
          = (processEvents (parseEvent t e) l).findings := rfl
        _ = (parseEvent t e).findings := h2
        _ = t.findings := h1

/-- Replaying a list whose URL candidates are all already present (or whose
source list is full) leaves the sources component unchanged. -/
theorem processEvents_sources_stable (l : List Json) (t : ParseState)
    (h : ∀ e ∈ l, ∀ u ∈ urlCands e, u ∈ t.sources ∨ 10 ≤ t.sources.length) :
    (processEvents t l).sources = t.sources := by
  induction l generalizing t with
  | nil => rfl
  | cons e l ih =>
      have h1 : (parseEvent t e).sources = t.sources := by
        rw [parseEvent_sources]
        exact foldl_addSource_stable _ _ (h e (List.mem_cons_self _ _))
      have h2 : (processEvents (parseEvent t e) l).sources = (parseEvent t e).sources := by
        refine ih _ (fun e' he' u hu => ?_)
        rw [h1]; exact h e' (List.mem_cons_of_mem _ he') u hu
      calc (processEvents t (e :: l)).sources
          = (processEvents (parseEvent t e) l).sources := rfl
        _ = (parseEvent t e).sources := h2
        _ = t.sources := h1

theorem findSome?_ne {α β : Type} (f : α → Option β) (l : List α) (b : β)
    (hf : ∀ a, f a ≠ some b) : l.findSome? f ≠ some b := by
  induction l with
  | nil => simp [List.findSome?]
  | cons a l ih =>
      simp only [List.findSome?]
      cases h : f a with
      | none => exact ih
      | some b' =>
          intro hc
          exact hf a (by rw [h, Option.some_inj.mp hc])

theorem statusWrite_ne_pending (e : Json) (p : Phase) :
    statusWrite e p ≠ some .pending := by
  unfold statusWrite
  split
  · simp
  · cases p <;> split_ifs <;> simp

/-! ## Claim C1 — phase transitions are *not* forward-only -/

/-- Claim C1, counterexample: after an event whose node key contains
`security`, the entity-identification phase is `complete`; a subsequent
event whose node key contains `entity` moves it back to `active`, so a
later event does change a `complete` phase back, contradicting the claim
that transitions are applied only when they move the phase strictly
forward. -/
theorem c1_counterexample :
    (processEvents initState [secEvent]).phases.entityIdentification = .complete ∧
    (processEvents initState [secEvent, entEvent]).phases.entityIdentification = .active := by
  exact ⟨rfl, rfl⟩

/-- Claim C1, amended: status writes are applied unconditionally
(last-write-wins), so a `complete` phase can be reverted to `active` by a
later event; however every write is `active` or `complete`, so for every
event sequence a phase found `pending` afterwards was already `pending`
before — no phase ever returns to `pending`. -/
theorem c1_amended_no_return_to_pending (evs : List Json) (s : ParseState) (p : Phase)
    (h : statusOf (processEvents s evs).phases p = .pending) :
    statusOf s.phases p = .pending := by
  rw [processEvents_status] at h
  cases hl : lastWrite (fun e => statusWrite e p) evs with
  | none => rw [hl] at h; exact h
  | some st =>
      rw [hl] at h
      simp only [Option.getD_some] at h
      subst h
      have : ∀ e, statusWrite e p ≠ some .pending := fun e => statusWrite_ne_pending e p
      exact absurd hl (findSome?_ne _ _ _ this)

/-- Witness for the amended C1 at a concrete input. -/
theorem c1_witness :
    statusOf (processEvents initState [secEvent]).phases .complianceCheck = .pending ∧
    statusOf initState.phases .complianceCheck = .pending :=
  ⟨rfl, c1_amended_no_return_to_pending [secEvent] initState .complianceCheck rfl⟩

/-! ## Claim C3 — replaying an event log is idempotent -/

/-- Claim C3: replaying the same ordered event log twice produces exactly
the same final state (phase statuses, findings, sources, trust score and
brief) as processing it once. -/
theorem c3_replay_idempotent (evs : List Json) :
    processEvents initState (evs ++ evs) = processEvents initState evs := by
  have hsplit : processEvents initState (evs ++ evs) =
      processEvents (processEvents initState evs) evs := by
    simp [processEvents, List.foldl_append]
  rw [hsplit]
  have hbrief := processEvents_absWrite_replay ParseState.researchBrief briefWrite
    (fun o a => match o with | some b => some b | none => a)
    (fun a => rfl) (fun b a a' => rfl) parseEvent_brief evs initState
  have hscore := processEvents_absWrite_replay ParseState.trustScore scoreWrite
    (fun o a => match o with | some n => some n | none => a)
    (fun a => rfl) (fun b a a' => rfl) parseEvent_score evs initState
  have hstatus : ∀ p : Phase,
      statusOf (processEvents (processEvents initState evs) evs).phases p =
        statusOf (processEvents initState evs).phases p := fun p =>
    processEvents_absWrite_replay (fun s => statusOf s.phases p)
      (fun e => statusWrite e p) (fun o a => o.getD a)
      (fun a => rfl) (fun b a a' => rfl) (fun s e => parseEvent_status s e p)
      evs initState
  have hfind := processEvents_findings_stable evs (processEvents initState evs)
    (fun e he m hm => processEvents_findings_covers evs initState e he m hm)
  have hsrc := processEvents_sources_stable evs (processEvents initState evs)
    (fun e he u hu => processEvents_sources_sat evs initState e he u hu)
  refine ParseState.ext hbrief ?_ hfind hsrc hscore
  exact Phases.ext
    (hstatus .entityIdentification) (hstatus .securityAnalysis)
    (hstatus .complianceCheck) (hstatus .sourceGathering)
    (hstatus .researchSynthesis)

/-! ## Claim C10 — trust score is the last matching capture, unclamped -/

/-- Claim C10: after any event sequence the trust score equals the capture
of the trust-score pattern from the most recent matching event (`none` when
no event matched), and the value is surfaced without clamping — a concrete
event claiming 150 yields a displayed score of 150, above the 0–100 range. -/
theorem c10_trust_score_last_match :
    (∀ evs : List Json,
      (processEvents initState evs).trustScore = lastWrite scoreWrite evs) ∧
    (processEvents initState [bigScoreEvent]).trustScore = some 150 ∧ 100 < 150 := by
  refine ⟨?_, rfl, by decide⟩
  intro evs
  rw [processEvents_score]
  cases h : lastWrite scoreWrite evs <;> simp [initState]

/-! ## Claim C5 — which patterns scan which events -/

/-- Claim C5, counterexample: an event whose node key carries only the
`compliance` keyword contributes no finding and no source even though its
full serialized JSON matches both the CVE pattern and the URL pattern — so
those two patterns are not applied regardless of the node name. -/
theorem c5_counterexample :
    (parseEvent initState compEvent).findings = [] ∧
    (parseEvent initState compEvent).sources = [] ∧
    scanCves (stringify compEvent) = ["CVE-2024-1234"] ∧
    scanUrlsRaw (stringify compEvent) = ["https://a.example/x"] :=
  ⟨rfl, rfl, rfl, rfl⟩

/-- Claim C5, amended: for every non-null decoded event the trust-score
pattern is applied to the full serialized JSON unconditionally, but the CVE
pattern contributes findings only when the node key carries a
security/vuln/cve keyword, and the URL pattern contributes sources only
when it carries a source/search/web keyword. -/
theorem c5_amended_extraction_scope (s : ParseState) (e : Json)
    (hn : isNullJson e = false) :
    (parseEvent s e).trustScore =
      (match scanScore (stringify e) with
       | some n => some n
       | none => s.trustScore) ∧
    (secKw e = false → (parseEvent s e).findings = s.findings) ∧
    (srcKw e = false → (parseEvent s e).sources = s.sources) ∧
    (secKw e = true →
      (parseEvent s e).findings =
        ((scanCves (stringify e)).map
          (fun cve => "Vulnerability detected: " ++ cve)).foldl addMsg s.findings) ∧
    (srcKw e = true →
      (parseEvent s e).sources = (extractUrls (stringify e)).foldl addSource s.sources) := by
  refine ⟨?_, ?_, ?_, ?_, ?_⟩
  · rw [parseEvent_score]
    simp [scoreWrite, hn]
  · intro hsec
    rw [parseEvent_findings]
    simp [findingMsgs, hn, hsec]
  · intro hsrc
    rw [parseEvent_sources]
    simp [urlCands, hn, hsrc]
  · intro hsec
    rw [parseEvent_findings]
    simp [findingMsgs, hn, hsec]
  · intro hsrc
    rw [parseEvent_sources]
    simp [urlCands, hn, hsrc]

/-- Witness for the amended C5 at a concrete input. -/
theorem c5_witness :
    (parseEvent initState compEvent).trustScore = initState.trustScore ∧
    (parseEvent initState compEvent).findings = initState.findings := by
  have h := c5_amended_extraction_scope initState compEvent rfl
  exact ⟨h.1.trans rfl, h.2.1 rfl⟩

/-! ## Claim C6 — entity matcher: registry order, exact or containment -/

/-- Claim C6: the matcher returns the first registry entry (in iteration
order) for which the per-entry tests succeed — exact equality of stored
name and key tried first, then bidirectional substring containment (`find?`
over the disjunction); and when no entry matches it returns `none` as a
normal outcome. -/
theorem c6_matcher_first_match :
    (∀ (key : String) (reg : List Entity),
      matchEntity key reg = reg.find? (entityMatches key)) ∧
    (∀ (key : String) (reg : List Entity),
      (∀ e ∈ reg, entityMatches key e = false) → matchEntity key reg = none) := by
  have hfind : ∀ (key : String) (reg : List Entity),
      matchEntity key reg = reg.find? (entityMatches key) := by
    intro key reg
    induction reg with
    | nil => rfl
    | cons e rest ih =>
        simp only [matchEntity, List.find?]
        by_cases h1 : storedName e = key
        · simp [entityMatches, h1]
        · by_cases h2 : strContains (storedName e) key || strContains key (storedName e)
          · simp [entityMatches, h1, h2]
          · simp only [Bool.or_eq_true] at h2
            push_neg at h2
            simp [entityMatches, h1, h2.1, h2.2, ih]
  refine ⟨hfind, fun key reg h => ?_⟩
  rw [hfind]
  exact List.find?_eq_none.mpr (fun e he => by simp [h e he])

/-- Witness for C6 at a concrete input with no matching entry. -/
theorem c6_witness : matchEntity "slack" [zoomEntity] = none :=
  c6_matcher_first_match.2 "slack" [zoomEntity] (by decide)

/-! ## Claim C7 — the cache is consulted before the entity matcher -/

/-- Claim C7, counterexample: with a cache holding a report under the
normalized query key and a registry entity pointing at a different cached
report, the implementation returns the direct cache hit, while the
spec-claimed order (matcher before cache) would return the entity-derived
report — the two outcomes differ at this input. -/
theorem c7_counterexample :
    resolve resCache [slackEntity] "Slack" = .foundDirect "slack" none "Slack" ∧
    resolveSpecOrder resCache [slackEntity] "Slack" =
      .foundViaEntity "slack-trust-001" none "Slack" slackEntity ∧
    (ResolveOutcome.foundDirect "slack" none "Slack" ≠
      ResolveOutcome.foundViaEntity "slack-trust-001" none "Slack" slackEntity) :=
  ⟨rfl, rfl, fun h => ResolveOutcome.noConfusion h⟩

/-- Claim C7, amended: resolution proceeds normalizer → direct cache lookup
under the lower-cased key → (only on a miss) entity matcher → cache lookup
by the matched entity's candidate ids.  On a direct hit the cached report
is returned immediately and the registry is never consulted (the outcome is
independent of the registry); on a miss the outcome is decided by the
matcher and the entity-derived lookup. -/
theorem c7_amended_cache_first (cache : List (String × Json))
    (reg reg' : List Entity) (name : String) :
    ((docGet cache (strLower name)).isSome →
      resolve cache reg name = resolve cache reg' name) ∧
    (∀ doc, docGet cache (strLower name) = some doc →
      resolve cache reg name =
        .foundDirect (strLower name) (orNull (getProp doc "cached_at")) name) ∧
    (docGet cache (strLower name) = none →
      matchEntity (strLower name) reg = none →
      resolve cache reg name = .notFound name) ∧
    (∀ ent, docGet cache (strLower name) = none →
      matchEntity (strLower name) reg = some ent →
      resolve cache reg name =
        (match lookupByEntity cache ent with
         | some (cid, doc) =>
             .foundViaEntity cid (orNull (getProp doc "cached_at")) name ent
         | none => .notFound name)) := by
  refine ⟨?_, ?_, ?_, ?_⟩
  · intro hs
    rcases Option.isSome_iff_exists.mp hs with ⟨doc, hdoc⟩
    simp [resolve, hdoc]
  · intro doc hdoc
    simp [resolve, hdoc]
  · intro hmiss hnm
    simp [resolve, hmiss, hnm]
  · intro ent hmiss hm
    simp [resolve, hmiss, hm]

/-- Witness for the amended C7 at a concrete input with a direct hit. -/
theorem c7_witness :
    resolve resCache [slackEntity] "Slack" = resolve resCache [] "Slack" :=
  (c7_amended_cache_first resCache [slackEntity] [] "Slack").1 (by decide)

/-! ## Claim C8 — cache access is case-insensitive -/

theorem char_toNat_ofNat_lower (n : Nat) (h1 : 97 ≤ n) (h2 : n ≤ 122) :
    (Char.ofNat n).toNat = n := by
  have hv : n.isValidChar := Or.inl (by omega)
  rw [Char.ofNat, dif_pos hv]
  simp [Char.ofNatAux, Char.toNat, UInt32.toNat, BitVec.toNat_ofNatLt]

theorem asciiLower_idem (c : Char) : asciiLower (asciiLower c) = asciiLower c := by
  unfold asciiLower
  by_cases h : 65 ≤ c.toNat ∧ c.toNat ≤ 90
  · rw [if_pos h]
    have ht : (Char.ofNat (c.toNat + 32)).toNat = c.toNat + 32 :=
      char_toNat_ofNat_lower _ (by omega) (by omega)
    rw [if_neg (by rw [ht]; omega)]
  · rw [if_neg h, if_neg h]

theorem strLower_idem (s : String) : strLower (strLower s) = strLower s := by
  unfold strLower
  have hdata : (String.mk (s.data.map asciiLower)).data = s.data.map asciiLower := rfl
  rw [hdata, List.map_map]
  have hf : asciiLower ∘ asciiLower = asciiLower := funext asciiLower_idem
  rw [hf]

/-- Claim C8: report lookup lower-cases its key, so `lookup(k)` equals
`lookup(lowercase(k))` for every key and cache; and a report stored under
the normalized key derived from `Slack` is returned for the later queries
`slack` and `SLACK`. -/
theorem c8_cache_case_insensitive :
    (∀ (cache : List (String × Json)) (k : String),
      lookupReport cache k = lookupReport cache (strLower k)) ∧
    (∀ (cache : List (String × Json)) (r : Json),
      lookupReport (cacheStore cache (strLower "Slack") r) "slack" = some r ∧
      lookupReport (cacheStore cache (strLower "Slack") r) "SLACK" = some r) := by
  constructor
  · intro cache k
    unfold lookupReport
    rw [strLower_idem]
  · intro cache r
    exact ⟨rfl, rfl⟩

/-! ## Claim C9 — access records require a cache hit and append once -/

theorem userHistory_setUserHistory (users : List (String × List AccessRecord))
    (uid : String) (h : List AccessRecord) :
    userHistory (setUserHistory users uid h) uid = h := by
  induction users with
  | nil => simp [setUserHistory, userHistory]
  | cons kv rest ih =>
      by_cases hk : kv.1 = uid
      · simp [setUserHistory, userHistory, hk]
      · simp [setUserHistory, userHistory, hk, ih]

/-- Claim C9: with nonempty ids, a key that misses the cache yields
`notFound` and leaves the user store untouched; a cache hit array-unions
exactly the record built from the cached document — lower-cased entity
name, the access timestamp, the trust-score snapshot — and when that
record is not already present the user's history becomes the old history
with exactly that one record appended. -/
theorem c9_record_access (cache : List (String × Json))
    (users : List (String × List AccessRecord)) (uid name now : String)
    (hu : uid ≠ "") (hn : name ≠ "") :
    (docGet cache (strLower name) = none →
      recordAccess cache users uid name now = (.notFound, users)) ∧
    (∀ cdoc, docGet cache (strLower name) = some cdoc →
      recordAccess cache users uid name now =
        (.ok, setUserHistory users uid
          (arrayUnion (userHistory users uid) (mkAccessRecord name now cdoc))) ∧
      (mkAccessRecord name now cdoc).entityName = strLower name ∧
      (mkAccessRecord name now cdoc).accessedAt = now ∧
      ((userHistory users uid).any (recBeq (mkAccessRecord name now cdoc)) = false →
        userHistory (recordAccess cache users uid name now).2 uid =
          userHistory users uid ++ [mkAccessRecord name now cdoc])) := by
  have hguard : ¬(uid = "" ∨ name = "") := by
    intro h; rcases h with h | h
    · exact hu h
    · exact hn h
  constructor
  · intro hmiss
    unfold recordAccess
    rw [if_neg hguard, hmiss]
  · intro cdoc hhit
    have hrec : recordAccess cache users uid name now =
        (.ok, setUserHistory users uid
          (arrayUnion (userHistory users uid) (mkAccessRecord name now cdoc))) := by
      unfold recordAccess
      rw [if_neg hguard, hhit]
    refine ⟨hrec, rfl, rfl, fun hfresh => ?_⟩
    rw [hrec]
    show userHistory (setUserHistory users uid
      (arrayUnion (userHistory users uid) (mkAccessRecord name now cdoc))) uid =
      userHistory users uid ++ [mkAccessRecord name now cdoc]
    rw [userHistory_setUserHistory]
    unfold arrayUnion
    rw [if_neg (by rw [hfresh]; exact Bool.false_ne_true)]

/-- Witness for C9 at a concrete input: the record for `Slack` is appended
to an empty history. -/
theorem c9_witness :
    userHistory (recordAccess repCache [] "u1" "Slack" "2026-01-01T00:00:00Z").2 "u1" =
      userHistory ([] : List (String × List AccessRecord)) "u1" ++
        [mkAccessRecord "Slack" "2026-01-01T00:00:00Z" repDoc] := by
  have h := (c9_record_access repCache [] "u1" "Slack" "2026-01-01T00:00:00Z"
    (by decide) (by decide)).2 repDoc rfl
  exact h.2.2.2 rfl

/-! ## Claim C4 — a malformed data line is skipped, the stream continues -/

theorem trimChars_cons_ne (c : Char) (l : List Char) (hc : isWs c = false) :
    trimChars (c :: l) ≠ [] := by
  intro h
  unfold trimChars at h
  rw [List.dropWhile_cons] at h
  rw [hc] at h
  simp only [Bool.false_eq_true, if_false, List.reverse_eq_nil_iff,
    List.dropWhile_eq_nil_iff] at h
  have := h c (by simp)
  rw [hc] at this
  exact Bool.false_ne_true this

/-- Claim C4: a `data:` line whose payload fails to decode leaves the state
unchanged, and a line sequence containing such a line produces exactly the
state of the same sequence without it — the bad line never aborts
processing of subsequent lines. -/
theorem c4_bad_line_skipped (dec : String → Option Json) (rest : List Char)
    (hdec : dec (String.mk (trimChars rest)) = none) :
    (∀ s : ParseState, processLine dec s (("data:".data) ++ rest) = s) ∧
    (∀ (s0 : ParseState) (pre post : List (List Char)),
      (pre ++ (("data:".data) ++ rest) :: post).foldl (processLine dec) s0 =
        (pre ++ post).foldl (processLine dec) s0) := by
  have hline : ∀ s : ParseState, processLine dec s (("data:".data) ++ rest) = s := by
    intro s
    show processLine dec s ('d' :: 'a' :: 't' :: 'a' :: ':' :: rest) = s
    unfold processLine
    rw [if_neg (trimChars_cons_ne 'd' _ (by decide))]
    have h2 : (": heartbeat".data.isPrefixOf ('d' :: 'a' :: 't' :: 'a' :: ':' :: rest)) = false := rfl
    have h3 : ("event:".data.isPrefixOf ('d' :: 'a' :: 't' :: 'a' :: ':' :: rest)) = false := rfl
    have h4 : ("data:".data.isPrefixOf ('d' :: 'a' :: 't' :: 'a' :: ':' :: rest)) = true := by
      cases rest <;> rfl
    rw [if_neg (by rw [h2]; exact Bool.false_ne_true),
      if_neg (by rw [h3]; exact Bool.false_ne_true), if_pos h4]
    show (match dec (String.mk (trimChars rest)) with
          | some data => parseEvent s data
          | none => s) = s
    rw [hdec]
  refine ⟨hline, fun s0 pre post => ?_⟩
  rw [List.foldl_append, List.foldl_append, List.foldl_cons, hline]

/-- Witness for C4 at a concrete input: the undecodable line ` oops` is
skipped and the following well-formed line is still processed into a
finding. -/
theorem c4_witness :
    decDemo (String.mk (trimChars (" oops".data))) = none ∧
    ([("data:".data ++ " oops".data), "data: demo".data].foldl
        (processLine decDemo) initState) =
      (["data: demo".data].foldl (processLine decDemo) initState) ∧
    (["data: demo".data].foldl (processLine decDemo) initState).findings =
      ["Vulnerability detected: CVE-2025-0001"] := by
  refine ⟨rfl, ?_, rfl⟩
  exact (c4_bad_line_skipped decDemo (" oops".data) rfl).2 initState [] ["data: demo".data]

/-! ## Claim C2 — chunk fragmentation does not change the outcome -/

theorem splitNl_ne (cs : List Char) : splitNl cs ≠ [] := by
  induction cs with
  | nil => simp [splitNl]
  | cons c cs ih =>
      simp only [splitNl]
      split
      · simp
      · cases h : splitNl cs <;> simp

theorem frontParts_cons (x : List Char) (L : List (List Char)) (h : L ≠ []) :
    frontParts (x :: L) = x :: frontParts L := by
  cases L with
  | nil => exact absurd rfl h
  | cons y ys => rfl

theorem lastPart_cons (x : List Char) (L : List (List Char)) (h : L ≠ []) :
    lastPart (x :: L) = lastPart L := by
  cases L with
  | nil => exact absurd rfl h
  | cons y ys => rfl

theorem consHead_ne (x : List Char) (L : List (List Char)) : consHead x L ≠ [] := by
  cases L <;> simp [consHead]

theorem frontParts_append (A B : List (List Char)) (hB : B ≠ []) :
    frontParts (A ++ B) = A ++ frontParts B := by
  induction A with
  | nil => rfl
  | cons x A ih =>
      have hAB : A ++ B ≠ [] := by
        intro h
        exact hB (List.append_eq_nil.mp h).2
      rw [List.cons_append, frontParts_cons x (A ++ B) hAB, ih, List.cons_append]

theorem lastPart_append (A B : List (List Char)) (hB : B ≠ []) :
    lastPart (A ++ B) = lastPart B := by
  induction A with
  | nil => rfl
  | cons x A ih =>
      have hAB : A ++ B ≠ [] := by
        intro h
        exact hB (List.append_eq_nil.mp h).2
      rw [List.cons_append, lastPart_cons x (A ++ B) hAB, ih]

theorem splitNl_cons_nl (cs : List Char) : splitNl ('\n' :: cs) = [] :: splitNl cs := by
  simp [splitNl]

theorem splitNl_cons_other (c : Char) (cs : List Char) (hc : c ≠ '\n') :
    splitNl (c :: cs) =
      (match splitNl cs with
       | [] => [[c]]
       | l :: ls => (c :: l) :: ls) := by
  simp [splitNl, hc]

theorem noNl_lastPart (cs : List Char) : ∀ c ∈ lastPart (splitNl cs), c ≠ '\n' := by
  induction cs with
  | nil => simp [splitNl, lastPart]
  | cons c cs ih =>
      by_cases hc : c = '\n'
      · subst hc
        rw [splitNl_cons_nl, lastPart_cons _ _ (splitNl_ne cs)]
        exact ih
      · rw [splitNl_cons_other c cs hc]
        rcases hS : splitNl cs with _ | ⟨l, ls⟩
        · exact absurd hS (splitNl_ne cs)
        · cases ls with
          | nil =>
              show ∀ x ∈ lastPart [c :: l], x ≠ '\n'
              intro x hx
              rcases List.mem_cons.mp hx with h | h
              · subst h; exact hc
              · exact ih x (by rw [hS]; exact h)
          | cons l2 ls2 =>
              show ∀ x ∈ lastPart ((c :: l) :: l2 :: ls2), x ≠ '\n'
              intro x hx
              rw [lastPart_cons _ _ (by simp)] at hx
              exact ih x (by rw [hS, lastPart_cons _ _ (by simp)]; exact hx)

theorem splitNl_append (a b : List Char) :
    splitNl (a ++ b) =
      frontParts (splitNl a) ++ consHead (lastPart (splitNl a)) (splitNl b) := by
  induction a with
  | nil =>
      show splitNl b = frontParts [[]] ++ consHead (lastPart [[]]) (splitNl b)
      rcases hS : splitNl b with _ | ⟨y, ys⟩
      · exact absurd hS (splitNl_ne b)
      · rfl
  | cons c a ih =>
      by_cases hc : c = '\n'
      · subst hc
        rw [List.cons_append, splitNl_cons_nl, splitNl_cons_nl, ih,
          frontParts_cons _ _ (splitNl_ne a), lastPart_cons _ _ (splitNl_ne a),
          List.cons_append]
      · rw [List.cons_append, splitNl_cons_other c (a ++ b) hc,
          splitNl_cons_other c a hc, ih]
        rcases hS : splitNl a with _ | ⟨l, ls⟩
        · exact absurd hS (splitNl_ne a)
        · cases ls with
          | nil =>
              rcases hSB : splitNl b with _ | ⟨sb, sbs⟩
              · exact absurd hSB (splitNl_ne b)
              · show (c :: (l ++ sb)) :: sbs = ((c :: l) ++ sb) :: sbs
                rw [List.cons_append]
          | cons l2 ls2 => rfl

theorem splitNl_noNl (cs : List Char) (h : ∀ c ∈ cs, c ≠ '\n') :
    splitNl cs = [cs] := by
  induction cs with
  | nil => rfl
  | cons c cs ih =>
      have hc : c ≠ '\n' := h c (List.mem_cons_self _ _)
      simp only [splitNl, hc, if_false]
      rw [ih (fun x hx => h x (List.mem_cons_of_mem _ hx))]

theorem processChunk_append (dec : String → Option Json) (st : StreamState)
    (a b : List Char) :
    processChunk dec (processChunk dec st a) b = processChunk dec st (a ++ b) := by
  have hx : ∀ c ∈ lastPart (splitNl (st.buffer ++ a)), c ≠ '\n' :=
    noNl_lastPart (st.buffer ++ a)
  have hsplit1 : splitNl (lastPart (splitNl (st.buffer ++ a)) ++ b) =
      consHead (lastPart (splitNl (st.buffer ++ a))) (splitNl b) := by
    rw [splitNl_append, splitNl_noNl _ hx]
    simp [frontParts, lastPart]
  have hsplit2 : splitNl (st.buffer ++ (a ++ b)) =
      frontParts (splitNl (st.buffer ++ a)) ++
        consHead (lastPart (splitNl (st.buffer ++ a))) (splitNl b) := by
    rw [← List.append_assoc, splitNl_append]
  have hch : consHead (lastPart (splitNl (st.buffer ++ a))) (splitNl b) ≠ [] :=
    consHead_ne _ _
  apply StreamState.ext
  · show lastPart (splitNl ((processChunk dec st a).buffer ++ b)) =
      lastPart (splitNl (st.buffer ++ (a ++ b)))
    show lastPart (splitNl (lastPart (splitNl (st.buffer ++ a)) ++ b)) = _
    rw [hsplit1, hsplit2, lastPart_append _ _ hch]
  · show (frontParts (splitNl ((processChunk dec st a).buffer ++ b))).foldl
        (processLine dec) (processChunk dec st a).ps =
      (frontParts (splitNl (st.buffer ++ (a ++ b)))).foldl (processLine dec) st.ps
    show (frontParts (splitNl (lastPart (splitNl (st.buffer ++ a)) ++ b))).foldl
        (processLine dec)
        ((frontParts (splitNl (st.buffer ++ a))).foldl (processLine dec) st.ps) = _
    rw [hsplit1, hsplit2, frontParts_append _ _ hch, List.foldl_append]

theorem processStream_flatten (dec : String → Option Json) (chunks : List (List Char)) :
    ∀ (st : StreamState) (a : List Char),
      processStream dec (processChunk dec st a) chunks =
        processChunk dec st (a ++ chunks.flatten) := by
  induction chunks with
  | nil => intro st a; simp [processStream]
  | cons b bs ih =>
      intro st a
      show processStream dec (processChunk dec (processChunk dec st a) b) bs = _
      rw [processChunk_append, ih]
      simp [List.append_assoc]

theorem flatten_oneByteChunks (log : List Char) : (oneByteChunks log).flatten = log := by
  induction log with
  | nil => rfl
  | cons c rest ih => simp only [oneByteChunks, List.map_cons, List.flatten_cons] at ih ⊢; rw [ih]; rfl

/-- Claim C2: delivering a log in 1-byte chunks produces exactly the same
final stream state (buffer, phase statuses, findings, sources, trust score,
brief) as delivering it whole, for every decoder; and a chunk with no line
terminator is only appended to the buffer — its text is never parsed
prematurely. -/
theorem c2_chunking_equiv :
    (∀ (dec : String → Option Json) (log : List Char),
      processStream dec initStream (oneByteChunks log) =
        processStream dec initStream [log]) ∧
    (∀ (dec : String → Option Json) (st : StreamState) (chunk : List Char),
      (∀ c ∈ st.buffer, c ≠ '\n') → (∀ c ∈ chunk, c ≠ '\n') →
      processChunk dec st chunk = { buffer := st.buffer ++ chunk, ps := st.ps }) := by
  constructor
  · intro dec log
    cases log with
    | nil => rfl
    | cons c rest =>
        show processStream dec (processChunk dec initStream [c]) (oneByteChunks rest) =
          processStream dec initStream [c :: rest]
        rw [processStream_flatten, flatten_oneByteChunks]
        rfl
  · intro dec st chunk hbuf hchunk
    have hno : ∀ c ∈ st.buffer ++ chunk, c ≠ '\n' := by
      intro c hc
      rcases List.mem_append.mp hc with h | h
      · exact hbuf c h
      · exact hchunk c h
    show StreamState.mk (lastPart (splitNl (st.buffer ++ chunk)))
        ((frontParts (splitNl (st.buffer ++ chunk))).foldl (processLine dec) st.ps) = _
    rw [splitNl_noNl _ hno]
    rfl

/-- Witness for C2 at a concrete input. -/
theorem c2_witness :
    processStream decNone initStream (oneByteChunks ("ab".data)) =
      processStream decNone initStream ["ab".data] ∧
    processChunk decNone initStream ("ab".data) =
      { buffer := "ab".data, ps := initState } := by
  exact ⟨c2_chunking_equiv.1 decNone ("ab".data),
    c2_chunking_equiv.2 decNone initStream ("ab".data) (by simp [initStream])
      (by decide)⟩

end Junction
